import Mathlib

/-!
Shallow embedding of the evolution-graph resolution engine of
`digimon_service.py` (class `DigimonEvolutionService`).

A pandas DataFrame row is modelled by `Row`: the four required columns
`Name`, `Stage`, `Attribute`, `Number`, plus `evolutionCells`, the cells of
the successor-bearing columns (the `Evolutions` column followed by the
`Unnamed: k` overflow columns, in column order).  A missing cell
(`pd.isna`) is `none`.  `Number` is `Option Int` because the code renders
`int(row['Number'])` when present and `None` otherwise.

Python `str.strip()` is modelled by `pyStrip` and `str.lower()` by
`pyLower`.  The JSON layer (`json.dumps(..., indent=2,
ensure_ascii=False)` and `json.loads`) is modelled by `json_dumps` /
`json_loads` over the `Json` inductive further below.
-/

namespace DigimonService

/-- Whitespace recognised by the model of Python `str.strip()`. -/
def pyWs (c : Char) : Bool :=
  c.toNat = 32 || c.toNat = 9 || c.toNat = 10 || c.toNat = 13 || c.toNat = 11 || c.toNat = 12

/-- Model of Python `str.strip()` on the character list. -/
def stripChars (l : List Char) : List Char :=
  ((l.dropWhile pyWs).reverse.dropWhile pyWs).reverse

/-- Model of Python `str.strip()`. -/
def pyStrip (s : String) : String :=
  String.mk (stripChars s.data)

/-- Model of Python `str.lower()`: lowercase every character. -/
def pyLower (s : String) : String :=
  String.mk (s.data.map Char.toLower)

/-- One row of the loaded DataFrame. -/
structure Row where
  Name : String
  Stage : String
  Attribute : String
  Number : Option Int
  evolutionCells : List (Option String)
deriving DecidableEq, Repr

/-- The loaded DataFrame: rows in source order. -/
abbrev Table := List Row

/-- Entry of the `preEvolutions` list built by `_find_previous_evolutions`. -/
structure PrevEvo where
  name : String
  stage : String
  number : Option Int
deriving DecidableEq, Repr

/-- Entry of the `postEvolutions` list built by `_find_next_evolutions`;
`stage` and `number` are `none` for a stub successor. -/
structure NextEvo where
  name : String
  stage : Option String
  number : Option Int
deriving DecidableEq, Repr

/-- The `currentDigimon` object built by `get_evolution_line`; `attr`
models the dict key named after the Attribute column, which is a reserved
word in Lean. -/
structure CurrentDigimon where
  name : String
  number : Option Int
  stage : String
  attr : String
deriving DecidableEq, Repr

/-- One result object of `get_evolution_line` (current digimon plus its
pre- and post-evolutions). -/
structure LineageEntry where
  currentDigimon : CurrentDigimon
  preEvolutions : List PrevEvo
  postEvolutions : List NextEvo
deriving DecidableEq, Repr

/-- Embedding of `DigimonEvolutionService._get_evolutions_from_row`: walk
the successor-bearing cells in column order, skip missing cells and cells
that are blank after stripping, and collect the stripped values. -/
def _get_evolutions_from_row (row : Row) : List String :=
  row.evolutionCells.filterMap (fun value =>
    match value with
    | none => none
    | some v => if pyStrip v = "" then none else some (pyStrip v))

/-- Embedding of `DigimonEvolutionService._find_previous_evolutions`: scan
every row; a row contributes one entry when the queried name appears
(case-insensitively) among its extracted evolutions. -/
def _find_previous_evolutions (df : Table) (digimon_name : String) : List PrevEvo :=
  df.filterMap (fun row =>
    if (_get_evolutions_from_row row).any (fun evo => pyLower digimon_name = pyLower evo)
    then some { name := row.Name, stage := row.Stage, number := row.Number }
    else none)

/-- Embedding of `DigimonEvolutionService._find_next_evolutions`: for each
extracted evolution name, look the name up case-insensitively; use the
first matching row when one exists, otherwise emit a stub entry. -/
def _find_next_evolutions (df : Table) (digimon_row : Row) : List NextEvo :=
  (_get_evolutions_from_row digimon_row).map (fun evo_name =>
    match df.filter (fun r => pyLower r.Name = pyLower evo_name) with
    | [] => { name := evo_name, stage := none, number := none }
    | evo_row :: _ => { name := evo_row.Name, stage := some evo_row.Stage, number := evo_row.Number })

/-- The result object `get_evolution_line` builds for one matching row. -/
def buildResult (df : Table) (digimon_row : Row) : LineageEntry :=
  { currentDigimon :=
      { name := digimon_row.Name
        number := digimon_row.Number
        stage := digimon_row.Stage
        attr := digimon_row.Attribute }
    preEvolutions := _find_previous_evolutions df digimon_row.Name
    postEvolutions := _find_next_evolutions df digimon_row }

/-- The three shapes of response `get_evolution_line` serializes: the
not-found error object, a single result object, or the multiple-results
object (whose message carries the count and the queried name verbatim). -/
inductive Resolution where
  | notFound (queried : String)
  | single (entry : LineageEntry)
  | multiple (count : Nat) (queried : String) (entries : List LineageEntry)
deriving DecidableEq, Repr

/-- Structural content of `DigimonEvolutionService.get_evolution_line`
before JSON serialization: filter the rows whose `Name` matches the query
case-insensitively; empty filter gives the not-found object, a single
match gives that result object directly, several matches give the
multiple-results object. -/
def resolve (df : Table) (digimon_name : String) : Resolution :=
  match df.filter (fun r => pyLower r.Name = pyLower digimon_name) with
  | [] => .notFound digimon_name
  | [digimon_row] => .single (buildResult df digimon_row)
  | digimon_matches =>
      .multiple (digimon_matches.map (buildResult df)).length digimon_name
        (digimon_matches.map (buildResult df))

/-- The required base columns checked by `_load_data`, in source order. -/
def base_columns : List String := ["Number", "Name", "Stage", "Attribute"]

/-- The apostrophe character, as used by Python `repr` of a string list. -/
def pyQuote : String := String.mk ['\x27']

/-- Python `str(list_of_strings)` as it appears in the f-string
`f"Missing required columns: {missing_columns}"`. -/
def pyListRepr (l : List String) : String :=
  "[" ++ String.intercalate ", " (l.map (fun s => pyQuote ++ s ++ pyQuote)) ++ "]"

/-- Embedding of `DigimonEvolutionService._load_data`.  The out-of-scope
reading step (`pd.read_excel`) is abstracted as its outcome: either a read
failure with message `e`, or the column list of the source together with
the parsed rows.  `_load_data` re-raises every failure wrapped in
`"Error loading Excel file: "`, and raises
`ValueError(f"Missing required columns: {missing_columns}")` (then wrapped
by its own handler) when a required base column is absent. -/
def _load_data (readResult : Except String (List String × Table)) : Except String Table :=
  match readResult with
  | .error e => .error ("Error loading Excel file: " ++ e)
  | .ok (columns, df) =>
      let missing_columns := base_columns.filter (fun col => !(columns.contains col))
      if missing_columns.isEmpty then .ok df
      else .error ("Error loading Excel file: " ++
        ("Missing required columns: " ++ pyListRepr missing_columns))

/-- JSON values as produced by `json.loads` / consumed by `json.dumps`
(ints only, since the service serializes no floats). -/
inductive Json where
  | null
  | bool (b : Bool)
  | int (i : Int)
  | str (s : String)
  | arr (elems : List Json)
  | obj (members : List (String × Json))
deriving Repr

/-- Decimal digits of `n`, most significant first. -/
def natChars (n : Nat) : List Char :=
  if h : n < 10 then [Char.ofNat (48 + n)]
  else natChars (n / 10) ++ [Char.ofNat (48 + n % 10)]
decreasing_by exact Nat.div_lt_self (by omega) (by omega)

/-- Python `repr` of an int: optional minus sign and decimal digits. -/
def intChars (i : Int) : List Char :=
  if i < 0 then '-' :: natChars (-i).toNat else natChars i.toNat

/-- Lowercase hexadecimal digit character for `k < 16`. -/
def hexChar (k : Nat) : Char :=
  if k < 10 then Char.ofNat (48 + k) else Char.ofNat (87 + k)

/-- How `json.dumps(..., ensure_ascii=False)` renders one character of a
string: `"` and `\` and the named control characters get two-character
escapes, other control characters get `\u00xx`, everything else is
emitted verbatim. -/
def escapeChar (c : Char) : List Char :=
  if c = '"' then ['\\', '"']
  else if c = '\\' then ['\\', '\\']
  else if c.toNat = 10 then ['\\', 'n']
  else if c.toNat = 9 then ['\\', 't']
  else if c.toNat = 13 then ['\\', 'r']
  else if c.toNat = 8 then ['\\', 'b']
  else if c.toNat = 12 then ['\\', 'f']
  else if c.toNat < 32 then ['\\', 'u', '0', '0', hexChar (c.toNat / 16), hexChar (c.toNat % 16)]
  else [c]

/-- Escape every character of a string body. -/
def escapeStr (l : List Char) : List Char :=
  l.flatMap escapeChar

/-- Indentation: `ind` spaces. -/
def indentC (ind : Nat) : List Char :=
  List.replicate ind ' '

mutual
/-- `json.dumps(v, indent=2, ensure_ascii=False)` at indentation `ind`. -/
def dumpsV (ind : Nat) : Json → List Char
  | .null => "null".data
  | .bool true => "true".data
  | .bool false => "false".data
  | .int i => intChars i
  | .str s => '"' :: (escapeStr s.data ++ ['"'])
  | .arr [] => ['[', ']']
  | .arr (x :: xs) =>
      '[' :: (dumpsItems (ind + 2) (x :: xs) ++ ('\n' :: (indentC ind ++ [']'])))
  | .obj [] => ['\x7b', '\x7d']
  | .obj (kv :: kvs) =>
      '\x7b' :: (dumpsMembs (ind + 2) (kv :: kvs) ++ ('\n' :: (indentC ind ++ ['\x7d'])))

/-- Array items, each on its own indented line, comma-separated. -/
def dumpsItems (ind : Nat) : List Json → List Char
  | [] => []
  | [x] => '\n' :: (indentC ind ++ dumpsV ind x)
  | x :: xs => '\n' :: (indentC ind ++ (dumpsV ind x ++ (',' :: dumpsItems ind xs)))

/-- Object members, each on its own indented line, comma-separated, with
the `": "` key separator. -/
def dumpsMembs (ind : Nat) : List (String × Json) → List Char
  | [] => []
  | [(k, v)] =>
      '\n' :: (indentC ind ++ ('"' :: (escapeStr k.data ++ ('"' :: (':' :: (' ' :: dumpsV ind v))))))
  | (k, v) :: kvs =>
      '\n' :: (indentC ind ++ ('"' :: (escapeStr k.data ++
        ('"' :: (':' :: (' ' :: (dumpsV ind v ++ (',' :: dumpsMembs ind kvs))))))))
end

/-- Model of `json.dumps(v, indent=2, ensure_ascii=False)`. -/
def json_dumps (v : Json) : String :=
  String.mk (dumpsV 0 v)

/-- JSON whitespace skipped by the parser. -/
def jsonWs (c : Char) : Bool :=
  c.toNat = 32 || c.toNat = 9 || c.toNat = 10 || c.toNat = 13

/-- Skip leading JSON whitespace. -/
def skipWs (l : List Char) : List Char :=
  l.dropWhile jsonWs

/-- Consume an expected literal character sequence. -/
def dropPre : List Char → List Char → Option (List Char)
  | [], l => some l
  | p :: ps, c :: l => if c = p then dropPre ps l else none
  | _ :: _, [] => none

/-- Decimal digit test. -/
def isDigitC (c : Char) : Bool :=
  48 ≤ c.toNat && c.toNat ≤ 57

/-- Value of a decimal digit character. -/
def digitVal (c : Char) : Nat :=
  c.toNat - 48

/-- Number denoted by a digit string, most significant first. -/
def digitsToNat (l : List Char) : Nat :=
  l.foldl (fun a c => a * 10 + digitVal c) 0

/-- Parse a nonempty run of decimal digits. -/
def parseNat (l : List Char) : Option (Nat × List Char) :=
  let ds := l.takeWhile isDigitC
  if ds.isEmpty then none else some (digitsToNat ds, l.dropWhile isDigitC)

/-- Hexadecimal digit test. -/
def isHex (c : Char) : Bool :=
  (48 ≤ c.toNat && c.toNat ≤ 57) || (97 ≤ c.toNat && c.toNat ≤ 102) ||
    (65 ≤ c.toNat && c.toNat ≤ 70)

/-- Value of a hexadecimal digit character. -/
def hexVal (c : Char) : Nat :=
  if c.toNat ≤ 57 then c.toNat - 48
  else if c.toNat ≤ 70 then c.toNat - 55
  else c.toNat - 87

/-- Parse the body of a JSON string after the opening quote, returning the
decoded characters and the input after the closing quote. -/
def parseStringBody : List Char → Option (List Char × List Char)
  | [] => none
  | c :: rest =>
    if c = '"' then some ([], rest)
    else if c = '\\' then
      match rest with
      | [] => none
      | e :: r =>
        if e = '"' then (parseStringBody r).map (fun p => ('"' :: p.1, p.2))
        else if e = '\\' then (parseStringBody r).map (fun p => ('\\' :: p.1, p.2))
        else if e = '/' then (parseStringBody r).map (fun p => ('/' :: p.1, p.2))
        else if e = 'n' then (parseStringBody r).map (fun p => ('\x0a' :: p.1, p.2))
        else if e = 't' then (parseStringBody r).map (fun p => ('\x09' :: p.1, p.2))
        else if e = 'r' then (parseStringBody r).map (fun p => ('\x0d' :: p.1, p.2))
        else if e = 'b' then (parseStringBody r).map (fun p => ('\x08' :: p.1, p.2))
        else if e = 'f' then (parseStringBody r).map (fun p => ('\x0c' :: p.1, p.2))
        else if e = 'u' then
          match r with
          | h1 :: h2 :: h3 :: h4 :: r2 =>
            if isHex h1 && isHex h2 && isHex h3 && isHex h4 then
              (parseStringBody r2).map (fun p =>
                (Char.ofNat (((hexVal h1 * 16 + hexVal h2) * 16 + hexVal h3) * 16 + hexVal h4)
                  :: p.1, p.2))
            else none
          | _ => none
        else none
    else (parseStringBody rest).map (fun p => (c :: p.1, p.2))

mutual
/-- Fuelled JSON value parser (model of `json.loads`). -/
def parseValue : Nat → List Char → Option (Json × List Char)
  | 0, _ => none
  | fuel + 1, l =>
    match skipWs l with
    | [] => none
    | c :: rest =>
      if c = '\x7b' then
        match skipWs rest with
        | [] => none
        | c2 :: r2 =>
          if c2 = '\x7d' then some (.obj [], r2)
          else (parseMembers fuel (c2 :: r2)).map (fun p => (Json.obj p.1, p.2))
      else if c = '[' then
        match skipWs rest with
        | [] => none
        | c2 :: r2 =>
          if c2 = ']' then some (.arr [], r2)
          else (parseElems fuel (c2 :: r2)).map (fun p => (Json.arr p.1, p.2))
      else if c = '"' then
        (parseStringBody rest).map (fun p => (Json.str (String.mk p.1), p.2))
      else if c = 'n' then (dropPre ['u', 'l', 'l'] rest).map (fun r => (Json.null, r))
      else if c = 't' then (dropPre ['r', 'u', 'e'] rest).map (fun r => (Json.bool true, r))
      else if c = 'f' then (dropPre ['a', 'l', 's', 'e'] rest).map (fun r => (Json.bool false, r))
      else if c = '-' then (parseNat rest).map (fun p => (Json.int (-(p.1 : Int)), p.2))
      else (parseNat (c :: rest)).map (fun p => (Json.int (p.1 : Int), p.2))

/-- Parse the elements of a nonempty array up to and including `]`. -/
def parseElems : Nat → List Char → Option (List Json × List Char)
  | 0, _ => none
  | fuel + 1, l =>
    match parseValue fuel l with
    | none => none
    | some (v, r) =>
      match skipWs r with
      | [] => none
      | c :: r2 =>
        if c = ',' then (parseElems fuel r2).map (fun p => (v :: p.1, p.2))
        else if c = ']' then some ([v], r2)
        else none

/-- Parse the members of a nonempty object up to and including the
closing brace. -/
def parseMembers : Nat → List Char → Option (List (String × Json) × List Char)
  | 0, _ => none
  | fuel + 1, l =>
    match skipWs l with
    | [] => none
    | c :: r =>
      if c = '"' then
        match parseStringBody r with
        | none => none
        | some (k, r2) =>
          match skipWs r2 with
          | [] => none
          | c2 :: r3 =>
            if c2 = ':' then
              match parseValue fuel r3 with
              | none => none
              | some (v, r4) =>
                match skipWs r4 with
                | [] => none
                | c3 :: r5 =>
                  if c3 = ',' then
                    (parseMembers fuel r5).map (fun p => ((String.mk k, v) :: p.1, p.2))
                  else if c3 = '\x7d' then some ([(String.mk k, v)], r5)
                  else none
            else none
      else none
end

/-- Model of `json.loads`: parse one JSON value and require only
whitespace after it. -/
def json_loads (s : String) : Option Json :=
  match parseValue (s.data.length + 1) s.data with
  | none => none
  | some (v, r) => if (skipWs r).isEmpty then some v else none

/-- How an optional number is placed into a result dict: `None` (JSON
null) when absent, the integer itself otherwise. -/
def numberJson : Option Int → Json
  | none => .null
  | some k => .int k

/-- JSON object of one `preEvolutions` entry. -/
def prevEvoJson (p : PrevEvo) : Json :=
  .obj [("name", .str p.name), ("stage", .str p.stage), ("number", numberJson p.number)]

/-- JSON object of one `postEvolutions` entry. -/
def nextEvoJson (q : NextEvo) : Json :=
  .obj [("name", .str q.name),
        ("stage", match q.stage with | none => Json.null | some s => Json.str s),
        ("number", numberJson q.number)]

/-- JSON object of the `currentDigimon` dict. -/
def currentJson (c : CurrentDigimon) : Json :=
  .obj [("name", .str c.name), ("number", numberJson c.number),
        ("stage", .str c.stage), ("attribute", .str c.attr)]

/-- JSON object of one result of `get_evolution_line`. -/
def lineageJson (e : LineageEntry) : Json :=
  .obj [("currentDigimon", currentJson e.currentDigimon),
        ("preEvolutions", .arr (e.preEvolutions.map prevEvoJson)),
        ("postEvolutions", .arr (e.postEvolutions.map nextEvoJson))]

/-- The response object `get_evolution_line` passes to `json.dumps`: the
error dict, a single result dict, or the message-plus-results dict. -/
def resolutionToJson : Resolution → Json
  | .notFound q =>
      .obj [("error", .bool true), ("message", .str ("Digimon not found: " ++ q))]
  | .single e => lineageJson e
  | .multiple c q es =>
      .obj [("message", .str ("Found " ++ String.mk (natChars c) ++ " results for: " ++ q)),
            ("results", .arr (es.map lineageJson))]

/-- Embedding of `DigimonEvolutionService.get_evolution_line`: serialize
the response object. -/
def get_evolution_line (df : Table) (digimon_name : String) : String :=
  json_dumps (resolutionToJson (resolve df digimon_name))

/-- Embedding of `DigimonEvolutionService.get_evolution_line_dict`:
`json.loads` applied to `get_evolution_line`. -/
def get_evolution_line_dict (df : Table) (digimon_name : String) : Option Json :=
  json_loads (get_evolution_line df digimon_name)

/-- Lookup of a key in a JSON object (Python `d["k"]`). -/
def jsonGet (j : Json) (key : String) : Option Json :=
  match j with
  | .obj members => (members.find? (fun kv => kv.1 = key)).map (fun kv => kv.2)
  | _ => none

/-- The list of result objects carried by a response shape. -/
def Resolution.entries : Resolution → List LineageEntry
  | .notFound _ => []
  | .single e => [e]
  | .multiple _ _ es => es

/-- Replace the queried name echoed inside a response shape, leaving the
result objects untouched (used to state how `resolve` depends on the
casing of its argument). -/
def requeried (q : String) : Resolution → Resolution
  | .notFound _ => .notFound q
  | .single e => .single e
  | .multiple c _ es => .multiple c q es

/-- Sample row: Koromon, evolving into Agumon. -/
def sampleKoromon : Row :=
  { Name := "Koromon", Stage := "II", Attribute := "Free", Number := some 2,
    evolutionCells := [some "Agumon"] }

/-- Sample row: Agumon, whose successor cell has surrounding whitespace
and whose Greymon reference is dangling. -/
def sampleAgumon : Row :=
  { Name := "Agumon", Stage := "III", Attribute := "Vaccine", Number := some 4,
    evolutionCells := [some " Greymon ", none, some "  "] }

/-- Sample row: an alternate Agumon form with no number. -/
def sampleAgumonForm2 : Row :=
  { Name := "Agumon", Stage := "VI", Attribute := "Virus", Number := none,
    evolutionCells := [] }

/-- Sample table with unique names. -/
def sampleTable : Table := [sampleKoromon, sampleAgumon]

/-- Sample table with a duplicated name. -/
def dupTable : Table := [sampleKoromon, sampleAgumon, sampleAgumonForm2]

mutual
/-- Fuel needed to parse a serialized value. -/
def sizeJ : Json → Nat
  | .null => 1
  | .bool _ => 1
  | .int _ => 1
  | .str _ => 1
  | .arr xs => 1 + sizeE xs
  | .obj kvs => 1 + sizeM kvs

/-- Fuel needed to parse serialized array elements. -/
def sizeE : List Json → Nat
  | [] => 0
  | x :: xs => 1 + sizeJ x + sizeE xs

/-- Fuel needed to parse serialized object members. -/
def sizeM : List (String × Json) → Nat
  | [] => 0
  | (_, v) :: kvs => 1 + sizeJ v + sizeM kvs
end

/-- What follows the first array item in serialized form: nothing, or a
comma and the remaining items. -/
def itemsSep (ind : Nat) : List Json → List Char
  | [] => []
  | xs@(_ :: _) => ',' :: dumpsItems ind xs

/-- What follows the first object member in serialized form: nothing, or
a comma and the remaining members. -/
def membsSep (ind : Nat) : List (String × Json) → List Char
  | [] => []
  | kvs@(_ :: _) => ',' :: dumpsMembs ind kvs

/-- A continuation that cannot extend a just-parsed number: empty, or
not starting with a digit. -/
def numSafe : List Char → Prop
  | [] => True
  | c :: _ => isDigitC c = false

end DigimonService

namespace DigimonService

theorem filter_match_eq_find_match {α β : Type} (l : List α) (p : α → Bool)
    (A : β) (B : α → β) :
    (match l.filter p with | [] => A | r :: _ => B r) =
      (match l.find? p with | none => A | some r => B r) := by
  induction l with
  | nil => rfl
  | cons x t ih =>
    by_cases h : p x
    · simp [List.filter_cons, h, List.find?_cons, ih]
    · simp only [List.filter_cons, List.find?_cons, h, Bool.false_eq_true, if_false, ite_false]
      exact ih

/-- C1: `resolve` follows the specified case analysis on the set of rows
whose name matches the query case-insensitively: no match gives the
not-found outcome carrying the queried name, exactly one match gives the
single result built from that row, several matches give the
multiple-results outcome carrying the count and one result object per
matching row. -/
theorem resolve_follows_case_analysis (df : Table) (n : String) :
    ((∀ r ∈ df, pyLower r.Name ≠ pyLower n) → resolve df n = .notFound n)
    ∧ (∀ row, df.filter (fun r => pyLower r.Name = pyLower n) = [row] →
        resolve df n = .single (buildResult df row))
    ∧ (2 ≤ (df.filter (fun r => pyLower r.Name = pyLower n)).length →
        resolve df n =
          .multiple (df.filter (fun r => pyLower r.Name = pyLower n)).length n
            ((df.filter (fun r => pyLower r.Name = pyLower n)).map (buildResult df))) := by
  refine ⟨fun h => ?_, fun row h => ?_, fun h => ?_⟩
  · have h0 : df.filter (fun r => pyLower r.Name = pyLower n) = [] := by
      rw [List.filter_eq_nil_iff]
      intro r hr
      simpa using h r hr
    unfold resolve
    rw [h0]
  · unfold resolve
    rw [h]
  · rcases hf : df.filter (fun r => pyLower r.Name = pyLower n) with _ | ⟨a, _ | ⟨b, t⟩⟩
    · rw [hf] at h; simp at h
    · rw [hf] at h; simp at h
    · unfold resolve
      rw [hf]
      simp

theorem resolve_follows_case_analysis_witness :
    resolve sampleTable "Tyrannomon" = .notFound "Tyrannomon"
    ∧ resolve dupTable "agumon" =
        .multiple (dupTable.filter (fun r => pyLower r.Name = pyLower "agumon")).length "agumon"
          ((dupTable.filter (fun r => pyLower r.Name = pyLower "agumon")).map
            (buildResult dupTable)) :=
  ⟨(resolve_follows_case_analysis sampleTable "Tyrannomon").1 (by decide),
   (resolve_follows_case_analysis dupTable "agumon").2.2 (by decide)⟩

/-- C4: on a query matching no row, `resolve` returns the not-found
outcome carrying the queried name as data (the embedding is a total
function, so nothing is raised). -/
theorem resolve_not_found_is_data (df : Table) (n : String)
    (h : ∀ r ∈ df, pyLower r.Name ≠ pyLower n) :
    resolve df n = .notFound n := by
  have h0 : df.filter (fun r => pyLower r.Name = pyLower n) = [] := by
    rw [List.filter_eq_nil_iff]
    intro r hr
    simpa using h r hr
  unfold resolve
  rw [h0]

theorem resolve_not_found_is_data_witness :
    resolve sampleTable "Ghostmon" = .notFound "Ghostmon" :=
  resolve_not_found_is_data sampleTable "Ghostmon" (by decide)

/-- C5 counterexample: two queries equal after lowercasing can produce
different results, because the not-found object echoes the queried name in
the casing it was given. -/
theorem resolve_case_insensitive_counterexample :
    pyLower "tyrannomon" = pyLower "TYRANNOMON"
    ∧ resolve sampleTable "tyrannomon" ≠ resolve sampleTable "TYRANNOMON" := by
  constructor
  · decide
  · decide

/-- C5 as amended: two queries equal after lowercasing produce the same
outcome shape with identical result objects (all names therein in the
rows' stored casing); only the queried name echoed in the not-found object
and in the multiple-results message follows the query's casing. -/
theorem resolve_case_insensitive_amended (df : Table) (n₁ n₂ : String)
    (h : pyLower n₁ = pyLower n₂) :
    resolve df n₂ = requeried n₂ (resolve df n₁) := by
  have hp : (fun r : Row => decide (pyLower r.Name = pyLower n₂)) =
      (fun r : Row => decide (pyLower r.Name = pyLower n₁)) := by
    funext r
    rw [h]
  unfold resolve
  rw [hp]
  rcases hf : df.filter (fun r => pyLower r.Name = pyLower n₁) with _ | ⟨a, _ | ⟨b, t⟩⟩ <;>
    rw [hf] <;> rfl

theorem resolve_case_insensitive_amended_witness :
    resolve sampleTable "AGUMON" = requeried "AGUMON" (resolve sampleTable "Agumon") :=
  resolve_case_insensitive_amended sampleTable "Agumon" "AGUMON" (by decide)

/-- C7: every successor name extracted from a row R yields, when queried
for predecessors, an entry carrying R's own name. -/
theorem predecessors_reflexive (df : Table) (R : Row) (hR : R ∈ df)
    (S : String) (hS : S ∈ _get_evolutions_from_row R) :
    ∃ p ∈ _find_previous_evolutions df S, p.name = R.Name := by
  refine ⟨⟨R.Name, R.Stage, R.Number⟩, ?_, rfl⟩
  unfold _find_previous_evolutions
  apply List.mem_filterMap.mpr
  refine ⟨R, hR, ?_⟩
  have hany : (_get_evolutions_from_row R).any
      (fun evo => pyLower S = pyLower evo) = true :=
    List.any_eq_true.mpr ⟨S, hS, by simp⟩
  simp [hany]

theorem predecessors_reflexive_witness :
    ∃ p ∈ _find_previous_evolutions sampleTable "Agumon", p.name = sampleKoromon.Name :=
  predecessors_reflexive sampleTable sampleKoromon (by decide) "Agumon" (by decide)

theorem dropWhile_head_not {α : Type} (p : α → Bool) (l : List α) (c : α) (t : List α)
    (h : l.dropWhile p = c :: t) : p c = false := by
  induction l with
  | nil => simp [List.dropWhile] at h
  | cons a l ih =>
    rw [List.dropWhile_cons] at h
    by_cases hp : p a
    · rw [if_pos hp] at h
      exact ih h
    · rw [if_neg hp] at h
      cases h
      simpa using hp

theorem stripChars_idem (l : List Char) : stripChars (stripChars l) = stripChars l := by
  unfold stripChars
  cases hk : (l.dropWhile pyWs).reverse.dropWhile pyWs with
  | nil => simp
  | cons c t =>
    have hc : pyWs c = false := dropWhile_head_not _ _ _ _ hk
    have hmne : l.dropWhile pyWs ≠ [] := by
      intro h0
      rw [h0] at hk
      simp at hk
    obtain ⟨cm, tm, hm⟩ : ∃ cm tm, l.dropWhile pyWs = cm :: tm := by
      cases hmm : l.dropWhile pyWs with
      | nil => exact absurd hmm hmne
      | cons x xs => exact ⟨x, xs, rfl⟩
    have hcm : pyWs cm = false := dropWhile_head_not _ _ _ _ hm
    have hlast : (c :: t).getLast? = some cm := by
      rw [← hk]
      obtain ⟨pre, hpre⟩ := List.dropWhile_suffix (l := (l.dropWhile pyWs).reverse) pyWs
      calc ((l.dropWhile pyWs).reverse.dropWhile pyWs).getLast?
          = (pre ++ (l.dropWhile pyWs).reverse.dropWhile pyWs).getLast? := by
            rw [List.getLast?_append_of_ne_nil]
            rw [hk]
            simp
        _ = (l.dropWhile pyWs).reverse.getLast? := by rw [hpre]
        _ = (l.dropWhile pyWs).head? := List.getLast?_reverse _
        _ = some cm := by rw [hm]; rfl
    have hrev : (c :: t).reverse.head? = some cm := by
      rw [List.head?_reverse]
      exact hlast
    have hself : (c :: t).reverse.dropWhile pyWs = (c :: t).reverse := by
      cases hr : (c :: t).reverse with
      | nil => rfl
      | cons x xs =>
        rw [hr] at hrev
        have hx : x = cm := by simpa using hrev
        subst hx
        simp [List.dropWhile_cons, hcm]
    rw [hself, List.reverse_reverse, List.dropWhile_cons, if_neg (by simp [hc])]

theorem pyStrip_idem (s : String) : pyStrip (pyStrip s) = pyStrip s := by
  unfold pyStrip
  rw [stripChars_idem]

/-- C8: the extracted successor names are exactly the present cell values,
stripped, with blank results dropped — in cell order — so no extracted
name is empty or carries surrounding whitespace. -/
theorem extract_successor_names_spec (row : Row) :
    _get_evolutions_from_row row =
      ((row.evolutionCells.filterMap id).map pyStrip).filter (fun s => s ≠ "")
    ∧ ∀ s ∈ _get_evolutions_from_row row, s ≠ "" ∧ pyStrip s = s := by
  constructor
  · unfold _get_evolutions_from_row
    induction row.evolutionCells with
    | nil => rfl
    | cons c t ih =>
      cases c with
      | none => simpa using ih
      | some v =>
        by_cases hv : pyStrip v = ""
        · simp [List.filterMap_cons, hv, ih]
        · simp [List.filterMap_cons, hv, ih]
  · intro s hs
    unfold _get_evolutions_from_row at hs
    obtain ⟨cell, _, hf⟩ := List.mem_filterMap.mp hs
    cases cell with
    | none => simp at hf
    | some v =>
      by_cases hv : pyStrip v = ""
      · simp [hv] at hf
      · simp only [hv, if_false, ite_false, Option.some.injEq] at hf
        refine ⟨hf ▸ hv, ?_⟩
        rw [← hf, pyStrip_idem]

theorem extract_successor_names_spec_witness :
    "Greymon" ≠ "" ∧ pyStrip "Greymon" = "Greymon" :=
  (extract_successor_names_spec sampleAgumon).2 "Greymon" (by decide)

theorem filterMap_ite_eq_map_filter {α β : Type} (f : α → β) (p : α → Bool) (l : List α) :
    l.filterMap (fun a => if p a then some (f a) else none) = (l.filter p).map f := by
  induction l with
  | nil => rfl
  | cons x t ih =>
    by_cases h : p x <;> simp [List.filterMap_cons, List.filter_cons, h, ih]

/-- C2: the predecessor scan returns, in table order, one entry per row
whose extracted successor names contain the query case-insensitively —
one entry per matching row however many slots match — carrying that row's
own name, stage and number. -/
theorem find_previous_characterization (df : Table) (n : String) :
    _find_previous_evolutions df n =
      (df.filter (fun R =>
          decide (∃ evo ∈ _get_evolutions_from_row R, pyLower n = pyLower evo))).map
        (fun R => { name := R.Name, stage := R.Stage, number := R.Number }) := by
  unfold _find_previous_evolutions
  rw [filterMap_ite_eq_map_filter
    (fun row : Row => ({ name := row.Name, stage := row.Stage, number := row.Number } : PrevEvo))
    (fun row : Row => (_get_evolutions_from_row row).any (fun evo => pyLower n = pyLower evo)) df]
  congr 1
  apply List.filter_congr
  intro R _
  by_cases hex : ∃ evo ∈ _get_evolutions_from_row R, pyLower n = pyLower evo
  · rw [decide_eq_true hex]
    apply List.any_eq_true.mpr
    obtain ⟨evo, hm, he⟩ := hex
    exact ⟨evo, hm, by simpa using he⟩
  · rw [decide_eq_false hex]
    rw [Bool.eq_false_iff]
    intro hany
    exact hex (by simpa using List.any_eq_true.mp hany)

theorem find?_eq_head_filter {α : Type} (l : List α) (p : α → Bool) :
    l.find? p = (l.filter p).head? := by
  induction l with
  | nil => rfl
  | cons x t ih =>
    by_cases h : p x
    · rw [List.find?_cons_of_pos _ h, List.filter_cons_of_pos h]
      rfl
    · rw [List.find?_cons_of_neg _ h, List.filter_cons_of_neg h]
      exact ih

/-- C3: the successor computation emits exactly one entry per extracted
successor name, in order: the first case-insensitively matching row's
stored name, stage and number when a match exists, else a stub carrying
the referenced name with null stage and number. -/
theorem find_next_characterization (df : Table) (row : Row) :
    _find_next_evolutions df row =
      (_get_evolutions_from_row row).map (fun evo_name =>
        match df.find? (fun r => pyLower r.Name = pyLower evo_name) with
        | none => { name := evo_name, stage := none, number := none }
        | some r => { name := r.Name, stage := some r.Stage, number := r.Number }) := by
  unfold _find_next_evolutions
  apply List.map_congr_left
  intro nm _
  rw [find?_eq_head_filter]
  cases hf : df.filter (fun r => pyLower r.Name = pyLower nm) with
  | nil => rfl
  | cons a t => rfl

/-- C6: loading fails with the wrapped error naming exactly the missing
required columns when any of them is absent, wraps any underlying read
failure the same way, and succeeds with all rows when the required
columns are present. -/
theorem load_data_spec (cols : List String) (df : Table) (e : String) :
    (_load_data (.error e) = .error ("Error loading Excel file: " ++ e))
    ∧ ((∀ c ∈ base_columns, cols.contains c) → _load_data (.ok (cols, df)) = .ok df)
    ∧ ((∃ c ∈ base_columns, ¬ cols.contains c) →
        base_columns.filter (fun col => !(cols.contains col)) ≠ []
        ∧ _load_data (.ok (cols, df)) =
            .error ("Error loading Excel file: " ++
              ("Missing required columns: " ++
                pyListRepr (base_columns.filter (fun col => !(cols.contains col)))))) := by
  refine ⟨rfl, fun h => ?_, fun h => ?_⟩
  · have h0 : base_columns.filter (fun col => !(cols.contains col)) = [] := by
      rw [List.filter_eq_nil_iff]
      intro c hc
      rw [h c hc]
      simp
    unfold _load_data
    dsimp only
    rw [h0]
    rfl
  · obtain ⟨c, hc, hnc⟩ := h
    have hne : base_columns.filter (fun col => !(cols.contains col)) ≠ [] := by
      intro h0
      rw [List.filter_eq_nil_iff] at h0
      exact (h0 c hc) (by rw [Bool.eq_false_iff.mpr hnc]; rfl)
    refine ⟨hne, ?_⟩
    have hni : (base_columns.filter (fun col => !(cols.contains col))).isEmpty = false := by
      cases hfe : base_columns.filter (fun col => !(cols.contains col)) with
      | nil => exact absurd hfe hne
      | cons a t => rfl
    unfold _load_data
    dsimp only
    rw [hni]
    rfl

theorem load_data_spec_witness :
    _load_data (.error "file corrupted") =
      .error ("Error loading Excel file: " ++ "file corrupted")
    ∧ _load_data (.ok (["Number", "Name", "Stage", "Attribute"], sampleTable)) = .ok sampleTable
    ∧ _load_data (.ok (["Number", "Stage"], sampleTable)) =
        .error ("Error loading Excel file: " ++
          ("Missing required columns: " ++
            pyListRepr (base_columns.filter (fun col => !(["Number", "Stage"].contains col))))) :=
  ⟨(load_data_spec [] sampleTable "file corrupted").1,
   (load_data_spec ["Number", "Name", "Stage", "Attribute"] sampleTable "").2.1 (by decide),
   ((load_data_spec ["Number", "Stage"] sampleTable "").2.2 (by decide)).2⟩

theorem numberJson_eq_match (x : Option Int) :
    numberJson x = (match x with | none => Json.null | some k => Json.int k) := by
  cases x <;> rfl

theorem jsonGet_currentJson_number (c : CurrentDigimon) :
    jsonGet (currentJson c) "number" = some (numberJson c.number) := by
  rfl

theorem jsonGet_prevEvoJson_number (p : PrevEvo) :
    jsonGet (prevEvoJson p) "number" = some (numberJson p.number) := by
  rfl

theorem jsonGet_nextEvoJson_number (q : NextEvo) :
    jsonGet (nextEvoJson q) "number" = some (numberJson q.number) := by
  rfl

theorem entries_are_built_from_rows (df : Table) (n : String) (e : LineageEntry)
    (he : e ∈ (resolve df n).entries) : ∃ r ∈ df, e = buildResult df r := by
  unfold resolve at he
  rcases hf : df.filter (fun r => pyLower r.Name = pyLower n) with _ | ⟨a, _ | ⟨b, t⟩⟩ <;>
      rw [hf] at he
  · simp [Resolution.entries] at he
  · simp only [Resolution.entries, List.mem_singleton] at he
    exact ⟨a, List.mem_of_mem_filter (hf ▸ List.mem_cons_self a []), he⟩
  · simp only [Resolution.entries] at he
    obtain ⟨r, hr, hre⟩ := List.mem_map.mp he
    exact ⟨r, List.mem_of_mem_filter (hf ▸ hr), hre.symm⟩

/-- C9: every result object of `resolve` renders each `number` key as JSON
null exactly when the providing row has no number (stubs included) and as
that row's integer otherwise; the key is always present and an absent
number is never rendered as 0. -/
theorem number_fields_serialize_faithfully (df : Table) (n : String) :
    ∀ e ∈ (resolve df n).entries,
      ((∃ r ∈ df, e.currentDigimon.name = r.Name ∧ e.currentDigimon.number = r.Number)
       ∧ jsonGet (currentJson e.currentDigimon) "number" =
           some (match e.currentDigimon.number with | none => Json.null | some k => Json.int k))
      ∧ (∀ p ∈ e.preEvolutions,
          (∃ r ∈ df, p.name = r.Name ∧ p.number = r.Number)
          ∧ jsonGet (prevEvoJson p) "number" =
              some (match p.number with | none => Json.null | some k => Json.int k))
      ∧ (∀ q ∈ e.postEvolutions,
          ((∃ r ∈ df, q.name = r.Name ∧ q.number = r.Number ∧ q.stage = some r.Stage)
            ∨ (q.stage = none ∧ q.number = none))
          ∧ jsonGet (nextEvoJson q) "number" =
              some (match q.number with | none => Json.null | some k => Json.int k)) := by
  intro e he
  obtain ⟨r, hr, hre⟩ := entries_are_built_from_rows df n e he
  subst hre
  refine ⟨⟨⟨r, hr, rfl, rfl⟩, ?_⟩, fun p hp => ⟨?_, ?_⟩, fun q hq => ⟨?_, ?_⟩⟩
  · rw [jsonGet_currentJson_number, numberJson_eq_match]
  · have hp2 : p ∈ _find_previous_evolutions df r.Name := hp
    unfold _find_previous_evolutions at hp2
    obtain ⟨row, hrow, hpf⟩ := List.mem_filterMap.mp hp2
    by_cases hany : (_get_evolutions_from_row row).any
        (fun evo => pyLower r.Name = pyLower evo) = true
    · rw [if_pos hany] at hpf
      cases hpf
      exact ⟨row, hrow, rfl, rfl⟩
    · rw [if_neg hany] at hpf
      cases hpf
  · rw [jsonGet_prevEvoJson_number, numberJson_eq_match]
  · have hq2 : q ∈ _find_next_evolutions df r := hq
    unfold _find_next_evolutions at hq2
    obtain ⟨nm, _, hqf⟩ := List.mem_map.mp hq2
    rcases hf2 : df.filter (fun rr => pyLower rr.Name = pyLower nm) with _ | ⟨a, t⟩ <;>
        rw [hf2] at hqf
    · right
      rw [← hqf]
      exact ⟨rfl, rfl⟩
    · left
      refine ⟨a, List.mem_of_mem_filter (hf2 ▸ List.mem_cons_self a t), ?_⟩
      rw [← hqf]
      exact ⟨rfl, rfl, rfl⟩
  · rw [jsonGet_nextEvoJson_number, numberJson_eq_match]

theorem number_fields_serialize_faithfully_witness :
    ((∃ r ∈ sampleTable,
        (buildResult sampleTable sampleAgumon).currentDigimon.name = r.Name
        ∧ (buildResult sampleTable sampleAgumon).currentDigimon.number = r.Number)
     ∧ jsonGet (currentJson (buildResult sampleTable sampleAgumon).currentDigimon) "number" =
         some (match (buildResult sampleTable sampleAgumon).currentDigimon.number with
               | none => Json.null | some k => Json.int k))
    ∧ (∀ p ∈ (buildResult sampleTable sampleAgumon).preEvolutions,
        (∃ r ∈ sampleTable, p.name = r.Name ∧ p.number = r.Number)
        ∧ jsonGet (prevEvoJson p) "number" =
            some (match p.number with | none => Json.null | some k => Json.int k))
    ∧ (∀ q ∈ (buildResult sampleTable sampleAgumon).postEvolutions,
        ((∃ r ∈ sampleTable, q.name = r.Name ∧ q.number = r.Number ∧ q.stage = some r.Stage)
          ∨ (q.stage = none ∧ q.number = none))
        ∧ jsonGet (nextEvoJson q) "number" =
            some (match q.number with | none => Json.null | some k => Json.int k)) :=
  number_fields_serialize_faithfully sampleTable "Agumon"
    (buildResult sampleTable sampleAgumon) (by decide)

theorem char_ofNat_toNat_small (n : Nat) (h : n < 128) : (Char.ofNat n).toNat = n := by
  have hv : n.isValidChar := Or.inl (by omega)
  simp [Char.ofNat, hv]
  rfl

theorem digit_char_props (c : Char) (h : isDigitC c = true) :
    c ≠ '\x7b' ∧ c ≠ '[' ∧ c ≠ '"' ∧ c ≠ 'n' ∧ c ≠ 't' ∧ c ≠ 'f' ∧ c ≠ '-'
    ∧ jsonWs c = false ∧ c ≠ ']' ∧ c ≠ ',' ∧ c ≠ '\x7d' := by
  unfold isDigitC at h
  rw [Bool.and_eq_true, decide_eq_true_eq, decide_eq_true_eq] at h
  refine ⟨?_, ?_, ?_, ?_, ?_, ?_, ?_, ?_, ?_, ?_, ?_⟩ <;>
    first
      | (intro he; rw [he] at h; revert h; decide)
      | (unfold jsonWs
         rw [Bool.or_eq_false_iff, Bool.or_eq_false_iff, Bool.or_eq_false_iff]
         refine ⟨⟨⟨?_, ?_⟩, ?_⟩, ?_⟩ <;> (rw [decide_eq_false_iff_not]; omega))

theorem ws_char_not_digit (c : Char) (h : jsonWs c = true) : isDigitC c = false := by
  unfold jsonWs at h
  unfold isDigitC
  rw [Bool.or_eq_true, Bool.or_eq_true, Bool.or_eq_true] at h
  simp only [decide_eq_true_eq] at h
  rw [Bool.and_eq_false_iff]
  rcases h with ((h | h) | h) | h <;> [left; left; left; left] <;>
    (rw [decide_eq_false_iff_not]; omega)

theorem skipWs_cons_not (c : Char) (l : List Char) (h : jsonWs c = false) :
    skipWs (c :: l) = c :: l := by
  simp [skipWs, List.dropWhile_cons, h]

theorem skipWs_ws_append (w l : List Char) (h : ∀ c ∈ w, jsonWs c = true) :
    skipWs (w ++ l) = skipWs l := by
  induction w with
  | nil => rfl
  | cons c t ih =>
    have hc : jsonWs c = true := h c (List.mem_cons_self c t)
    rw [List.cons_append]
    show (c :: (t ++ l)).dropWhile jsonWs = skipWs l
    rw [List.dropWhile_cons, if_pos hc]
    exact ih (fun x hx => h x (List.mem_cons_of_mem c hx))

theorem skipWs_skipWs (l : List Char) : skipWs (skipWs l) = skipWs l := by
  induction l with
  | nil => rfl
  | cons c t ih =>
    by_cases hc : jsonWs c = true
    · show ((c :: t).dropWhile jsonWs).dropWhile jsonWs = (c :: t).dropWhile jsonWs
      rw [List.dropWhile_cons, if_pos hc]
      exact ih
    · have hc2 : jsonWs c = false := Bool.eq_false_iff.mpr hc
      rw [skipWs_cons_not c t hc2, skipWs_cons_not c t hc2]

theorem line_ws (ind : Nat) : ∀ c ∈ ('\x0a' :: indentC ind), jsonWs c = true := by
  intro c hc
  rcases List.mem_cons.mp hc with h | h
  · rw [h]; rfl
  · rw [List.eq_of_mem_replicate h]; rfl

theorem skipWs_line (ind : Nat) (X : List Char) :
    skipWs ('\x0a' :: (indentC ind ++ X)) = skipWs X := by
  rw [← List.cons_append]
  exact skipWs_ws_append _ X (line_ws ind)

theorem parseValue_skipWs (fuel : Nat) (l : List Char) :
    parseValue fuel (skipWs l) = parseValue fuel l := by
  cases fuel with
  | zero => rfl
  | succ f =>
    show (match skipWs (skipWs l) with
      | [] => none
      | c :: rest =>
        if c = '\x7b' then
          match skipWs rest with
          | [] => none
          | c2 :: r2 =>
            if c2 = '\x7d' then some (.obj [], r2)
            else (parseMembers f (c2 :: r2)).map (fun p => (Json.obj p.1, p.2))
        else if c = '[' then
          match skipWs rest with
          | [] => none
          | c2 :: r2 =>
            if c2 = ']' then some (.arr [], r2)
            else (parseElems f (c2 :: r2)).map (fun p => (Json.arr p.1, p.2))
        else if c = '"' then
          (parseStringBody rest).map (fun p => (Json.str (String.mk p.1), p.2))
        else if c = 'n' then (dropPre ['u', 'l', 'l'] rest).map (fun r => (Json.null, r))
        else if c = 't' then (dropPre ['r', 'u', 'e'] rest).map (fun r => (Json.bool true, r))
        else if c = 'f' then (dropPre ['a', 'l', 's', 'e'] rest).map (fun r => (Json.bool false, r))
        else if c = '-' then (parseNat rest).map (fun p => (Json.int (-(p.1 : Int)), p.2))
        else (parseNat (c :: rest)).map (fun p => (Json.int (p.1 : Int), p.2))) = parseValue (f + 1) l
    rw [skipWs_skipWs]
    rfl

theorem parseValue_ws_append (fuel : Nat) (w l : List Char) (h : ∀ c ∈ w, jsonWs c = true) :
    parseValue fuel (w ++ l) = parseValue fuel l := by
  rw [← parseValue_skipWs fuel (w ++ l), skipWs_ws_append w l h, parseValue_skipWs]

theorem parseElems_ws_append (fuel : Nat) (w l : List Char) (h : ∀ c ∈ w, jsonWs c = true) :
    parseElems fuel (w ++ l) = parseElems fuel l := by
  cases fuel with
  | zero => rfl
  | succ f =>
    show (match parseValue f (w ++ l) with
      | none => none
      | some (v, r) =>
        match skipWs r with
        | [] => none
        | c :: r2 =>
          if c = ',' then (parseElems f r2).map (fun p => (v :: p.1, p.2))
          else if c = ']' then some ([v], r2)
          else none) = parseElems (f + 1) l
    rw [parseValue_ws_append f w l h]
    rfl

theorem parseMembers_ws_append (fuel : Nat) (w l : List Char) (h : ∀ c ∈ w, jsonWs c = true) :
    parseMembers fuel (w ++ l) = parseMembers fuel l := by
  cases fuel with
  | zero => rfl
  | succ f =>
    show (match skipWs (w ++ l) with
      | [] => none
      | c :: r =>
        if c = '"' then
          match parseStringBody r with
          | none => none
          | some (k, r2) =>
            match skipWs r2 with
            | [] => none
            | c2 :: r3 =>
              if c2 = ':' then
                match parseValue f r3 with
                | none => none
                | some (v, r4) =>
                  match skipWs r4 with
                  | [] => none
                  | c3 :: r5 =>
                    if c3 = ',' then
                      (parseMembers f r5).map (fun p => ((String.mk k, v) :: p.1, p.2))
                    else if c3 = '\x7d' then some ([(String.mk k, v)], r5)
                    else none
              else none
        else none) = parseMembers (f + 1) l
    rw [skipWs_ws_append w l h]
    rfl

theorem dropPre_self (pat rest : List Char) : dropPre pat (pat ++ rest) = some rest := by
  induction pat with
  | nil => rfl
  | cons p ps ih =>
    rw [List.cons_append]
    show (if p = p then dropPre ps (ps ++ rest) else none) = some rest
    rw [if_pos rfl]
    exact ih

theorem isDigitC_of_range (c : Char) (h1 : 48 ≤ c.toNat) (h2 : c.toNat ≤ 57) :
    isDigitC c = true := by
  unfold isDigitC
  rw [Bool.and_eq_true]
  exact ⟨decide_eq_true h1, decide_eq_true h2⟩

theorem natChars_all_digits (n : Nat) : ∀ c ∈ natChars n, isDigitC c = true := by
  induction n using Nat.strong_induction_on with
  | _ n ih =>
    intro c hc
    rw [natChars] at hc
    by_cases h : n < 10
    · rw [dif_pos h] at hc
      rw [List.mem_singleton.mp hc]
      exact isDigitC_of_range _ (by rw [char_ofNat_toNat_small _ (by omega)]; omega)
        (by rw [char_ofNat_toNat_small _ (by omega)]; omega)
    · rw [dif_neg h] at hc
      rcases List.mem_append.mp hc with hm | hm
      · exact ih (n / 10) (Nat.div_lt_self (by omega) (by omega)) c hm
      · rw [List.mem_singleton.mp hm]
        have hlt : n % 10 < 10 := Nat.mod_lt n (by omega)
        exact isDigitC_of_range _ (by rw [char_ofNat_toNat_small _ (by omega)]; omega)
          (by rw [char_ofNat_toNat_small _ (by omega)]; omega)

theorem natChars_ne_nil (n : Nat) : natChars n ≠ [] := by
  rw [natChars]
  by_cases h : n < 10
  · rw [dif_pos h]
    simp
  · rw [dif_neg h]
    simp

theorem digitsToNat_natChars (n : Nat) : digitsToNat (natChars n) = n := by
  induction n using Nat.strong_induction_on with
  | _ n ih =>
    rw [natChars]
    by_cases h : n < 10
    · rw [dif_pos h]
      show 0 * 10 + digitVal (Char.ofNat (48 + n)) = n
      unfold digitVal
      rw [char_ofNat_toNat_small _ (by omega)]
      omega
    · rw [dif_neg h]
      show (natChars (n / 10) ++ [Char.ofNat (48 + n % 10)]).foldl
        (fun a c => a * 10 + digitVal c) 0 = n
      rw [List.foldl_append]
      have hrec : (natChars (n / 10)).foldl (fun a c => a * 10 + digitVal c) 0 = n / 10 :=
        ih (n / 10) (Nat.div_lt_self (by omega) (by omega))
      rw [hrec]
      show (n / 10) * 10 + digitVal (Char.ofNat (48 + n % 10)) = n
      unfold digitVal
      rw [char_ofNat_toNat_small _ (by omega)]
      omega

theorem takeWhile_append_all {α : Type} (p : α → Bool) (l1 l2 : List α)
    (h1 : ∀ c ∈ l1, p c = true)
    (h2 : match l2 with | [] => True | c :: _ => p c = false) :
    (l1 ++ l2).takeWhile p = l1 ∧ (l1 ++ l2).dropWhile p = l2 := by
  induction l1 with
  | nil =>
    cases l2 with
    | nil => exact ⟨rfl, rfl⟩
    | cons c t =>
      simp only [List.nil_append, List.takeWhile_cons, List.dropWhile_cons]
      rw [h2]
      exact ⟨rfl, rfl⟩
  | cons a t ih =>
    have ha : p a = true := h1 a (List.mem_cons_self a t)
    obtain ⟨ht, hd⟩ := ih (fun c hc => h1 c (List.mem_cons_of_mem a hc))
    rw [List.cons_append, List.takeWhile_cons, List.dropWhile_cons, ha]
    simp only [if_true, ite_true]
    exact ⟨by rw [ht], hd⟩

theorem parseNat_natChars (n : Nat) (rest : List Char) (hsafe : numSafe rest) :
    parseNat (natChars n ++ rest) = some (n, rest) := by
  obtain ⟨ht, hd⟩ := takeWhile_append_all isDigitC (natChars n) rest
    (natChars_all_digits n) (by cases rest with | nil => trivial | cons c t => exact hsafe)
  unfold parseNat
  rw [ht, hd]
  have hne : (natChars n).isEmpty = false := by
    cases hnc : natChars n with
    | nil => exact absurd hnc (natChars_ne_nil n)
    | cons a t => rfl
  dsimp only
  rw [hne]
  simp only [Bool.false_eq_true, if_false, ite_false]
  rw [digitsToNat_natChars]

theorem hexChar_spec : ∀ k, k < 16 → isHex (hexChar k) = true ∧ hexVal (hexChar k) = k := by
  decide

theorem char_eq_of_toNat_eq (c d : Char) (h : c.toNat = d.toNat) : c = d := by
  apply Char.ext
  have h2 : c.val.toNat = d.val.toNat := h
  exact UInt32.toNat.inj h2

theorem psb_escape (l : List Char) (rest : List Char) :
    parseStringBody (escapeStr l ++ ('"' :: rest)) = some (l, rest) := by
  induction l with
  | nil =>
    show parseStringBody ('"' :: rest) = some ([], rest)
    conv_lhs => unfold parseStringBody
    simp
  | cons c t ih =>
    have hsplit : escapeStr (c :: t) ++ ('"' :: rest) =
        escapeChar c ++ (escapeStr t ++ ('"' :: rest)) := by
      rw [show escapeStr (c :: t) = escapeChar c ++ escapeStr t from rfl, List.append_assoc]
    rw [hsplit]
    unfold escapeChar
    by_cases h1 : c = '"'
    · rw [if_pos h1]
      subst h1
      simp only [List.cons_append, List.nil_append]
      conv_lhs => unfold parseStringBody
      simp [ih]
    rw [if_neg h1]
    by_cases h2 : c = '\\'
    · rw [if_pos h2]
      subst h2
      simp only [List.cons_append, List.nil_append]
      conv_lhs => unfold parseStringBody
      simp [ih]
    rw [if_neg h2]
    by_cases h3 : c.toNat = 10
    · rw [if_pos h3]
      have hc : c = '\x0a' := char_eq_of_toNat_eq _ _ (by rw [h3]; rfl)
      subst hc
      simp only [List.cons_append, List.nil_append]
      conv_lhs => unfold parseStringBody
      simp [ih]
    rw [if_neg h3]
    by_cases h4 : c.toNat = 9
    · rw [if_pos h4]
      have hc : c = '\x09' := char_eq_of_toNat_eq _ _ (by rw [h4]; rfl)
      subst hc
      simp only [List.cons_append, List.nil_append]
      conv_lhs => unfold parseStringBody
      simp [ih]
    rw [if_neg h4]
    by_cases h5 : c.toNat = 13
    · rw [if_pos h5]
      have hc : c = '\x0d' := char_eq_of_toNat_eq _ _ (by rw [h5]; rfl)
      subst hc
      simp only [List.cons_append, List.nil_append]
      conv_lhs => unfold parseStringBody
      simp [ih]
    rw [if_neg h5]
    by_cases h6 : c.toNat = 8
    · rw [if_pos h6]
      have hc : c = '\x08' := char_eq_of_toNat_eq _ _ (by rw [h6]; rfl)
      subst hc
      simp only [List.cons_append, List.nil_append]
      conv_lhs => unfold parseStringBody
      simp [ih]
    rw [if_neg h6]
    by_cases h7 : c.toNat = 12
    · rw [if_pos h7]
      have hc : c = '\x0c' := char_eq_of_toNat_eq _ _ (by rw [h7]; rfl)
      subst hc
      simp only [List.cons_append, List.nil_append]
      conv_lhs => unfold parseStringBody
      simp [ih]
    rw [if_neg h7]
    by_cases h8 : c.toNat < 32
    · rw [if_pos h8]
      simp only [List.cons_append, List.nil_append]
      conv_lhs => unfold parseStringBody
      have hdiv : c.toNat / 16 < 16 := by omega
      have hmod : c.toNat % 16 < 16 := by omega
      have ha := hexChar_spec (c.toNat / 16) hdiv
      have hb := hexChar_spec (c.toNat % 16) hmod
      simp only [ha.1, hb.1, ha.2, hb.2, ih]
      have hval : ((hexVal '0' * 16 + hexVal '0') * 16 + c.toNat / 16) * 16 + c.toNat % 16
          = c.toNat := by
        rw [show hexVal '0' = 0 from rfl]
        omega
      simp [hval, Char.ofNat_toNat]
      decide
    rw [if_neg h8]
    simp only [List.cons_append, List.nil_append]
    conv_lhs => unfold parseStringBody
    rw [if_neg h1, if_neg h2]
    rw [ih]
    rfl

end DigimonService




namespace DigimonService
theorem sizeE_cons (x : Json) (xs : List Json) : sizeE (x :: xs) = 1 + sizeJ x + sizeE xs := by
  rw [sizeE]
theorem sizeM_cons (k : String) (v : Json) (kvs : List (String × Json)) :
    sizeM ((k, v) :: kvs) = 1 + sizeJ v + sizeM kvs := by
  rw [sizeM]
theorem sizeJ_arr (xs : List Json) : sizeJ (.arr xs) = 1 + sizeE xs := by rw [sizeJ]
theorem sizeJ_obj (kvs : List (String × Json)) : sizeJ (.obj kvs) = 1 + sizeM kvs := by rw [sizeJ]
theorem sizeJ_pos (v : Json) : 1 ≤ sizeJ v := by
  cases v <;> rw [sizeJ] <;> omega
theorem dumpsV_null (ind : Nat) : dumpsV ind .null = ['n', 'u', 'l', 'l'] := by rw [dumpsV]
theorem dumpsV_int (ind : Nat) (i : Int) : dumpsV ind (.int i) = intChars i := by rw [dumpsV]
theorem dumpsV_str (ind : Nat) (s : String) :
    dumpsV ind (.str s) = '"' :: (escapeStr s.data ++ ['"']) := by rw [dumpsV]
theorem dumpsV_arr_cons (ind : Nat) (x : Json) (xs : List Json) :
    dumpsV ind (.arr (x :: xs)) =
      '[' :: (dumpsItems (ind + 2) (x :: xs) ++ ('\x0a' :: (indentC ind ++ [']']))) := by
  rw [dumpsV]
theorem dumpsItems_cons (ind : Nat) (x : Json) (xs : List Json) :
    dumpsItems ind (x :: xs) =
      '\x0a' :: (indentC ind ++ (dumpsV ind x ++ itemsSep ind xs)) := by
  cases xs with
  | nil =>
    rw [dumpsItems]
    simp [itemsSep]
  | cons y ys =>
    rw [dumpsItems] <;> simp [itemsSep]

theorem dumpsV_true (ind : Nat) : dumpsV ind (.bool true) = ['t', 'r', 'u', 'e'] := by
  rw [dumpsV]

theorem dumpsV_false (ind : Nat) : dumpsV ind (.bool false) = ['f', 'a', 'l', 's', 'e'] := by
  rw [dumpsV]

theorem dumpsV_arr_nil (ind : Nat) : dumpsV ind (.arr []) = ['[', ']'] := by rw [dumpsV]

theorem dumpsV_obj_nil (ind : Nat) : dumpsV ind (.obj []) = ['\x7b', '\x7d'] := by rw [dumpsV]

theorem dumpsV_obj_cons (ind : Nat) (kv : String × Json) (kvs : List (String × Json)) :
    dumpsV ind (.obj (kv :: kvs)) =
      '\x7b' :: (dumpsMembs (ind + 2) (kv :: kvs) ++ ('\x0a' :: (indentC ind ++ ['\x7d']))) := by
  rw [dumpsV]

theorem dumpsMembs_cons (ind : Nat) (k : String) (v : Json) (kvs : List (String × Json)) :
    dumpsMembs ind ((k, v) :: kvs) =
      '\x0a' :: (indentC ind ++ ('"' :: (escapeStr k.data ++
        ('"' :: (':' :: (' ' :: (dumpsV ind v ++ membsSep ind kvs))))))) := by
  cases kvs with
  | nil =>
    rw [dumpsMembs]
    simp [membsSep]
  | cons kv2 kvs2 =>
    rw [dumpsMembs] <;> simp [membsSep]

theorem dumpsV_head (ind : Nat) (v : Json) :
    ∃ c cs, dumpsV ind v = c :: cs ∧ jsonWs c = false ∧ c ≠ ']' ∧ c ≠ '\x7d' := by
  cases v with
  | null => exact ⟨'n', _, dumpsV_null ind, by decide, by decide, by decide⟩
  | bool b =>
    cases b with
    | true => exact ⟨'t', _, dumpsV_true ind, by decide, by decide, by decide⟩
    | false => exact ⟨'f', _, dumpsV_false ind, by decide, by decide, by decide⟩
  | int i =>
    rw [dumpsV_int]
    unfold intChars
    by_cases h : i < 0
    · rw [if_pos h]
      exact ⟨'-', _, rfl, by decide, by decide, by decide⟩
    · rw [if_neg h]
      rcases hd : natChars i.toNat with _ | ⟨d, ds⟩
      · exact absurd hd (natChars_ne_nil _)
      · have hdig : isDigitC d = true :=
          natChars_all_digits i.toNat d (hd ▸ List.mem_cons_self d ds)
        obtain ⟨_, _, _, _, _, _, _, hws, hbr, _, hbc⟩ := digit_char_props d hdig
        exact ⟨d, ds, rfl, hws, hbr, hbc⟩
  | str s => exact ⟨'"', _, dumpsV_str ind s, by decide, by decide, by decide⟩
  | arr xs =>
    cases xs with
    | nil => exact ⟨'[', _, dumpsV_arr_nil ind, by decide, by decide, by decide⟩
    | cons x t => exact ⟨'[', _, dumpsV_arr_cons ind x t, by decide, by decide, by decide⟩
  | obj kvs =>
    cases kvs with
    | nil => exact ⟨'\x7b', _, dumpsV_obj_nil ind, by decide, by decide, by decide⟩
    | cons kv t => exact ⟨'\x7b', _, dumpsV_obj_cons ind kv t, by decide, by decide, by decide⟩

theorem sizeE_nil : sizeE [] = 0 := by rw [sizeE]

theorem sizeM_nil : sizeM [] = 0 := by rw [sizeM]

theorem size_le_dumps_all (N : Nat) :
    (∀ v ind, sizeJ v ≤ N → sizeJ v ≤ (dumpsV ind v).length)
    ∧ (∀ xs ind, sizeE xs ≤ N → sizeE xs ≤ (dumpsItems ind xs).length)
    ∧ (∀ kvs ind, sizeM kvs ≤ N → sizeM kvs ≤ (dumpsMembs ind kvs).length) := by
  induction N with
  | zero =>
    refine ⟨fun v ind h => absurd h (by have := sizeJ_pos v; omega),
            fun xs ind h => ?_, fun kvs ind h => ?_⟩
    · cases xs with
      | nil => rw [sizeE_nil]; omega
      | cons x t =>
        rw [sizeE_cons] at h
        have := sizeJ_pos x
        omega
    · cases kvs with
      | nil => rw [sizeM_nil]; omega
      | cons kv t =>
        obtain ⟨k, v⟩ := kv
        rw [sizeM_cons] at h
        have := sizeJ_pos v
        omega
  | succ N ih =>
    obtain ⟨ihV, ihE, ihM⟩ := ih
    refine ⟨fun v ind h => ?_, fun xs ind h => ?_, fun kvs ind h => ?_⟩
    · cases v with
      | null => rw [sizeJ, dumpsV_null]; simp
      | bool b =>
        cases b with
        | true => rw [sizeJ, dumpsV_true]; simp
        | false => rw [sizeJ, dumpsV_false]; simp
      | int i =>
        rw [sizeJ, dumpsV_int]
        unfold intChars
        by_cases hneg : i < 0
        · rw [if_pos hneg]
          simp
        · rw [if_neg hneg]
          rcases hd : natChars i.toNat with _ | ⟨d, ds⟩
          · exact absurd hd (natChars_ne_nil _)
          · simp
      | str s => rw [sizeJ, dumpsV_str]; simp
      | arr xs =>
        cases xs with
        | nil => rw [sizeJ_arr, sizeE_nil, dumpsV_arr_nil]; simp
        | cons x t =>
          rw [sizeJ_arr, dumpsV_arr_cons]
          have hE : sizeE (x :: t) ≤ N := by
            rw [sizeJ_arr] at h
            rw [sizeE_cons] at h ⊢
            have := sizeJ_pos x
            omega
          have hb := ihE (x :: t) (ind + 2) hE
          simp only [List.length_cons, List.length_append]
          omega
      | obj kvs =>
        cases kvs with
        | nil => rw [sizeJ_obj, sizeM_nil, dumpsV_obj_nil]; simp
        | cons kv t =>
          obtain ⟨k, v⟩ := kv
          rw [sizeJ_obj, dumpsV_obj_cons]
          have hM : sizeM ((k, v) :: t) ≤ N := by
            rw [sizeJ_obj] at h
            rw [sizeM_cons] at h ⊢
            have := sizeJ_pos v
            omega
          have hb := ihM ((k, v) :: t) (ind + 2) hM
          simp only [List.length_cons, List.length_append]
          omega
    · cases xs with
      | nil => rw [sizeE_nil]; omega
      | cons x t =>
        rw [sizeE_cons] at h ⊢
        have hx := sizeJ_pos x
        have h1 : sizeJ x ≤ N := by omega
        have hV := ihV x ind h1
        rw [dumpsItems_cons]
        cases t with
        | nil =>
          rw [sizeE_nil]
          simp only [itemsSep, List.length_cons, List.length_append, List.append_nil]
          omega
        | cons y ys =>
          have h2 : sizeE (y :: ys) ≤ N := by
            rw [sizeE_cons] at h ⊢
            have := sizeJ_pos y
            omega
          have hE2 := ihE (y :: ys) ind h2
          simp only [itemsSep, List.length_cons, List.length_append]
          omega
    · cases kvs with
      | nil => rw [sizeM_nil]; omega
      | cons kv t =>
        obtain ⟨k, v⟩ := kv
        rw [sizeM_cons] at h ⊢
        have hx := sizeJ_pos v
        have h1 : sizeJ v ≤ N := by omega
        have hV := ihV v ind h1
        rw [dumpsMembs_cons]
        cases t with
        | nil =>
          rw [sizeM_nil]
          simp only [membsSep, List.length_cons, List.length_append, List.append_nil]
          omega
        | cons kv2 ys =>
          obtain ⟨k2, v2⟩ := kv2
          have h2 : sizeM ((k2, v2) :: ys) ≤ N := by
            rw [sizeM_cons] at h ⊢
            have := sizeJ_pos v2
            omega
          have hM2 := ihM ((k2, v2) :: ys) ind h2
          simp only [membsSep, List.length_cons, List.length_append]
          omega

theorem sizeJ_le_dumps (v : Json) (ind : Nat) : sizeJ v ≤ (dumpsV ind v).length :=
  (size_le_dumps_all (sizeJ v)).1 v ind le_rfl

theorem parse_dumps_main : ∀ fuel : Nat,
    (∀ (v : Json) (ind : Nat) (rest : List Char), sizeJ v ≤ fuel → numSafe rest →
        parseValue fuel (dumpsV ind v ++ rest) = some (v, rest))
    ∧ (∀ (x : Json) (xs : List Json) (ind : Nat) (w rest : List Char),
        sizeE (x :: xs) ≤ fuel → (∀ c ∈ w, jsonWs c = true) →
        parseElems fuel (dumpsV ind x ++ (itemsSep ind xs ++ (w ++ (']' :: rest))))
          = some (x :: xs, rest))
    ∧ (∀ (k : String) (v : Json) (kvs : List (String × Json)) (ind : Nat) (w rest : List Char),
        sizeM ((k, v) :: kvs) ≤ fuel → (∀ c ∈ w, jsonWs c = true) →
        parseMembers fuel
          ('"' :: (escapeStr k.data ++ ('"' :: (':' :: (' ' :: (dumpsV ind v ++
            (membsSep ind kvs ++ (w ++ ('\x7d' :: rest)))))))))
          = some ((k, v) :: kvs, rest)) := by
  intro fuel
  induction fuel with
  | zero =>
    refine ⟨fun v ind rest hsz _ => absurd hsz (by have := sizeJ_pos v; omega),
            fun x xs ind w rest hsz _ => absurd hsz ?_,
            fun k v kvs ind w rest hsz _ => absurd hsz ?_⟩
    · rw [sizeE_cons]
      have := sizeJ_pos x
      omega
    · rw [sizeM_cons]
      have := sizeJ_pos v
      omega
  | succ f ih =>
    obtain ⟨ihP, ihQ, ihR⟩ := ih
    refine ⟨fun v ind rest hsz hsafe => ?_, fun x xs ind w rest hsz hw => ?_,
            fun k v kvs ind w rest hsz hw => ?_⟩
    · cases v with
      | null =>
        rw [dumpsV_null]
        simp only [List.cons_append, List.nil_append]
        conv_lhs => unfold parseValue
        rw [skipWs_cons_not _ _ (by decide)]
        simp [dropPre]
      | bool b =>
        cases b with
        | true =>
          rw [dumpsV_true]
          simp only [List.cons_append, List.nil_append]
          conv_lhs => unfold parseValue
          rw [skipWs_cons_not _ _ (by decide)]
          simp [dropPre]
        | false =>
          rw [dumpsV_false]
          simp only [List.cons_append, List.nil_append]
          conv_lhs => unfold parseValue
          rw [skipWs_cons_not _ _ (by decide)]
          simp [dropPre]
      | str s =>
        rw [dumpsV_str]
        simp only [List.cons_append, List.nil_append, List.append_assoc]
        conv_lhs => unfold parseValue
        rw [skipWs_cons_not _ _ (by decide)]
        simp [psb_escape]
      | int i =>
        rw [dumpsV_int]
        unfold intChars
        by_cases hneg : i < 0
        · rw [if_pos hneg]
          simp only [List.cons_append]
          conv_lhs => unfold parseValue
          rw [skipWs_cons_not _ _ (by decide)]
          dsimp only
          rw [parseNat_natChars _ _ hsafe]
          have hcast : (((-i).toNat : Int)) = -i := Int.toNat_of_nonneg (by omega)
          simp [hcast]
        · rw [if_neg hneg]
          rcases hd : natChars i.toNat with _ | ⟨d, ds⟩
          · exact absurd hd (natChars_ne_nil _)
          · have hdig : isDigitC d = true :=
              natChars_all_digits i.toNat d (hd ▸ List.mem_cons_self d ds)
            obtain ⟨hn1, hn2, hn3, hn4, hn5, hn6, hn7, hws, _, _, _⟩ := digit_char_props d hdig
            simp only [List.cons_append]
            conv_lhs => unfold parseValue
            rw [skipWs_cons_not _ _ hws]
            dsimp only
            rw [if_neg hn1, if_neg hn2, if_neg hn3, if_neg hn4, if_neg hn5, if_neg hn6,
              if_neg hn7]
            rw [show d :: (ds ++ rest) = (d :: ds) ++ rest from rfl, ← hd,
              parseNat_natChars _ _ hsafe]
            have hcast : ((i.toNat : Int)) = i := Int.toNat_of_nonneg (by omega)
            simp [hcast]
      | arr xs =>
        cases xs with
        | nil =>
          rw [dumpsV_arr_nil]
          simp only [List.cons_append, List.nil_append]
          conv_lhs => unfold parseValue
          rw [skipWs_cons_not _ _ (by decide)]
          dsimp only
          rw [skipWs_cons_not _ _ (by decide)]
          simp
        | cons x xs =>
          have hsE : sizeE (x :: xs) ≤ f := by
            rw [sizeJ_arr] at hsz
            omega
          rw [dumpsV_arr_cons, dumpsItems_cons]
          simp only [List.cons_append, List.nil_append, List.append_assoc]
          conv_lhs => unfold parseValue
          rw [skipWs_cons_not _ _ (by decide)]
          dsimp only
          rw [if_neg (show ¬(('[' : Char) = '\x7b') from by decide),
            if_pos (show ('[' : Char) = '[' from rfl)]
          obtain ⟨c, cs, hdv, hws, hbr, hbc⟩ := dumpsV_head (ind + 2) x
          rw [skipWs_line, hdv]
          simp only [List.cons_append]
          rw [skipWs_cons_not _ _ hws]
          dsimp only
          rw [if_neg hbr]
          rw [← List.cons_append, ← hdv]
          rw [show '\x0a' :: (indentC ind ++ (']' :: rest))
              = ('\x0a' :: indentC ind) ++ (']' :: rest) from rfl]
          rw [ihQ x xs (ind + 2) ('\x0a' :: indentC ind) rest hsE (line_ws ind)]
          rfl
      | obj kvs =>
        cases kvs with
        | nil =>
          rw [dumpsV_obj_nil]
          simp only [List.cons_append, List.nil_append]
          conv_lhs => unfold parseValue
          rw [skipWs_cons_not _ _ (by decide)]
          dsimp only
          rw [skipWs_cons_not _ _ (by decide)]
          simp
        | cons kv kvs =>
          obtain ⟨k, v⟩ := kv
          have hsM : sizeM ((k, v) :: kvs) ≤ f := by
            rw [sizeJ_obj] at hsz
            omega
          rw [dumpsV_obj_cons, dumpsMembs_cons]
          simp only [List.cons_append, List.nil_append, List.append_assoc]
          conv_lhs => unfold parseValue
          rw [skipWs_cons_not _ _ (by decide)]
          dsimp only
          rw [if_pos (show ('\x7b' : Char) = '\x7b' from rfl)]
          rw [skipWs_line]
          rw [skipWs_cons_not _ _ (by decide)]
          dsimp only
          rw [if_neg (show ¬(('"' : Char) = '\x7d') from by decide)]
          rw [show '\x0a' :: (indentC ind ++ ('\x7d' :: rest))
              = ('\x0a' :: indentC ind) ++ ('\x7d' :: rest) from rfl]
          rw [ihR k v kvs (ind + 2) ('\x0a' :: indentC ind) rest hsM (line_ws ind)]
          rfl
    · have hszx : sizeJ x ≤ f := by
        rw [sizeE_cons] at hsz
        omega
      have hsafeT : numSafe (itemsSep ind xs ++ (w ++ (']' :: rest))) := by
        cases xs with
        | nil =>
          simp only [itemsSep, List.nil_append]
          cases w with
          | nil => show isDigitC ']' = false; decide
          | cons cw tw =>
            show isDigitC cw = false
            exact ws_char_not_digit cw (hw cw (List.mem_cons_self cw tw))
        | cons y ys =>
          simp only [itemsSep, List.cons_append]
          show isDigitC ',' = false
          decide
      conv_lhs => unfold parseElems
      rw [ihP x ind _ hszx hsafeT]
      dsimp only
      cases xs with
      | nil =>
        simp only [itemsSep, List.nil_append]
        rw [skipWs_ws_append w _ hw, skipWs_cons_not _ _ (by decide)]
        dsimp only
        rw [if_neg (show ¬((']' : Char) = ',') from by decide),
          if_pos (show (']' : Char) = ']' from rfl)]
      | cons y ys =>
        have hszE2 : sizeE (y :: ys) ≤ f := by
          rw [sizeE_cons] at hsz
          have := sizeJ_pos x
          omega
        simp only [itemsSep, List.cons_append]
        rw [skipWs_cons_not _ _ (by decide)]
        dsimp only
        rw [if_pos (show (',' : Char) = ',' from rfl)]
        rw [dumpsItems_cons]
        simp only [List.cons_append, List.append_assoc]
        rw [show ('\x0a' :: (indentC ind ++ (dumpsV ind y ++ (itemsSep ind ys ++ (w ++ (']' :: rest))))))
            = ('\x0a' :: indentC ind) ++ (dumpsV ind y ++ (itemsSep ind ys ++ (w ++ (']' :: rest)))) from rfl]
        rw [parseElems_ws_append f _ _ (line_ws ind)]
        rw [ihQ y ys ind w rest hszE2 hw]
        rfl
    · have hszv : sizeJ v ≤ f := by
        rw [sizeM_cons] at hsz
        omega
      have hsafeR : numSafe (membsSep ind kvs ++ (w ++ ('\x7d' :: rest))) := by
        cases kvs with
        | nil =>
          simp only [membsSep, List.nil_append]
          cases w with
          | nil => show isDigitC '\x7d' = false; decide
          | cons cw tw =>
            show isDigitC cw = false
            exact ws_char_not_digit cw (hw cw (List.mem_cons_self cw tw))
        | cons kv2 kvs2 =>
          simp only [membsSep, List.cons_append]
          show isDigitC ',' = false
          decide
      conv_lhs => unfold parseMembers
      rw [skipWs_cons_not _ _ (by decide)]
      dsimp only
      rw [if_pos (show ('"' : Char) = '"' from rfl)]
      rw [psb_escape]
      dsimp only
      rw [skipWs_cons_not _ _ (by decide)]
      dsimp only
      rw [if_pos (show (':' : Char) = ':' from rfl)]
      rw [show (' ' :: (dumpsV ind v ++ (membsSep ind kvs ++ (w ++ ('\x7d' :: rest)))))
          = ([' '] ++ (dumpsV ind v ++ (membsSep ind kvs ++ (w ++ ('\x7d' :: rest))))) from rfl]
      rw [parseValue_ws_append f [' '] _ (by
        intro c hc
        rw [List.mem_singleton.mp hc]
        rfl)]
      rw [ihP v ind _ hszv hsafeR]
      dsimp only
      cases kvs with
      | nil =>
        simp only [membsSep, List.nil_append]
        rw [skipWs_ws_append w _ hw, skipWs_cons_not _ _ (by decide)]
        dsimp only
        rw [if_neg (show ¬(('\x7d' : Char) = ',') from by decide),
          if_pos (show ('\x7d' : Char) = '\x7d' from rfl)]
      | cons kv2 kvs2 =>
        obtain ⟨k2, v2⟩ := kv2
        have hszM2 : sizeM ((k2, v2) :: kvs2) ≤ f := by
          rw [sizeM_cons] at hsz
          have := sizeJ_pos v
          omega
        simp only [membsSep, List.cons_append]
        rw [skipWs_cons_not _ _ (by decide)]
        dsimp only
        rw [if_pos (show (',' : Char) = ',' from rfl)]
        rw [dumpsMembs_cons]
        simp only [List.cons_append, List.append_assoc]
        rw [show ('\x0a' :: (indentC ind ++ ('"' :: (escapeStr k2.data ++ ('"' :: (':' :: (' ' :: (dumpsV ind v2 ++ (membsSep ind kvs2 ++ (w ++ ('\x7d' :: rest)))))))))))
            = ('\x0a' :: indentC ind) ++ ('"' :: (escapeStr k2.data ++ ('"' :: (':' :: (' ' :: (dumpsV ind v2 ++ (membsSep ind kvs2 ++ (w ++ ('\x7d' :: rest))))))))) from rfl]
        rw [parseMembers_ws_append f _ _ (line_ws ind)]
        rw [ihR k2 v2 kvs2 ind w rest hszM2 hw]
        rfl
end DigimonService


namespace DigimonService

theorem json_loads_dumps (v : Json) : json_loads (json_dumps v) = some v := by
  unfold json_loads json_dumps
  have hfuel : sizeJ v ≤ (dumpsV 0 v).length + 1 := by
    have := sizeJ_le_dumps v 0
    omega
  have hP := (parse_dumps_main ((dumpsV 0 v).length + 1)).1 v 0 [] hfuel trivial
  rw [List.append_nil] at hP
  rw [show ((String.mk (dumpsV 0 v)).data) = dumpsV 0 v from rfl]
  rw [hP]
  rfl

/-- C10: parsing the JSON string produced by `get_evolution_line` yields
exactly the response object of the resolution, so the dict returned by
`get_evolution_line_dict` (defined as that parse) and the string-producing
interface denote the same resolution result. -/
theorem dict_equals_parsed_line (df : Table) (n : String) :
    get_evolution_line_dict df n = some (resolutionToJson (resolve df n)) := by
  unfold get_evolution_line_dict get_evolution_line
  exact json_loads_dumps _

end DigimonService
